import Mathlib

/-!
Verification of the towr NLP-formulation engine against its specification.

The numeric C++ code (doubles) is modelled over exact fields: the attitude
normalization `TOWR::GetUnique` (src/towr/src/towr.cc) over the reals, since it
manipulates multiples of pi, and the trajectory-extraction loop over the
rationals, where every constant appearing is rational.  Components whose
implementations are not part of the sources (only headers/doc comments are)
are modelled from the specification and marked as such in their doc comments.
-/

namespace Towr

/-- Euler ZYX angle triple, mirroring the Eigen Vector3d used by
TOWR::GetUnique (components accessed as x(), y(), z()). -/
structure Vector3d where
  x : ℝ
  y : ℝ
  z : ℝ

/-- The fixed tolerance `const double tol = 1e-3` of TOWR::GetUnique
(src/towr/src/towr.cc line 176). -/
def gimbalTol : ℝ := 1e-3

/-- Shallow embedding of TOWR::GetUnique (src/towr/src/towr.cc lines 172-228):
a one-pass case split on the middle (pitch) angle adjusting the triple. -/
noncomputable def getUnique (zyx : Vector3d) : Vector3d :=
  if zyx.y < -Real.pi/2 - gimbalTol then
    { x := if zyx.x < 0 then zyx.x + Real.pi else zyx.x - Real.pi
      y := -(zyx.y + Real.pi)
      z := if zyx.z < 0 then zyx.z + Real.pi else zyx.z - Real.pi }
  else if -Real.pi/2 - gimbalTol ≤ zyx.y ∧ zyx.y ≤ -Real.pi/2 + gimbalTol then
    { x := zyx.x - zyx.z
      y := zyx.y
      z := 0 }
  else if -Real.pi/2 + gimbalTol < zyx.y ∧ zyx.y < Real.pi/2 - gimbalTol then
    zyx
  else if Real.pi/2 - gimbalTol ≤ zyx.y ∧ zyx.y ≤ Real.pi/2 + gimbalTol then
    { x := zyx.x + zyx.z
      y := zyx.y
      z := 0 }
  else
    { x := if zyx.x < 0 then zyx.x + Real.pi else zyx.x - Real.pi
      y := -(zyx.y - Real.pi)
      z := if zyx.z < 0 then zyx.z + Real.pi else zyx.z - Real.pi }

/-- Rational 3-vector, for the parts of the code where every constant is
rational (trajectory extraction, terrain heights, cost matrices). -/
structure Vec3q where
  x : ℚ
  y : ℚ
  z : ℚ
deriving DecidableEq, Repr

/-- A linear state returned by Spline::GetPoint: position and its first two
derivatives. -/
structure StateLin3d where
  p : Vec3q
  v : Vec3q
  a : Vec3q
deriving DecidableEq, Repr

/-- Angular state produced by AngularStateConverter::GetState: an orientation
plus angular velocity and acceleration.  The converter itself lives outside
the sources; its output is carried around untouched by the extraction loop. -/
structure StateAng3d where
  q : ℚ × ℚ × ℚ × ℚ
  w : Vec3q
  wd : Vec3q
deriving DecidableEq, Repr

/-- The query interface of a variable-composite snapshot, as used by
TOWR::GetTrajectory (src/towr/src/towr.cc lines 102-131): the loop body only
calls const accessors on `vars`, namely GetPoint on the base linear, base
angular, per-leg motion and per-leg force splines, IsConstantPhase on each
leg's motion spline, and the angular-state conversion of the base angular
point.  `eeScheduleIsInContact` models ContactSchedule::IsInContact, the
alternative contact source that is commented out at line 118; the extraction
never reads it. -/
structure VarsModel (n : ℕ) where
  baseLinearPoint : ℚ → StateLin3d
  baseAngularPoint : ℚ → StateLin3d
  angularConverter : StateLin3d → StateAng3d
  eeMotionPoint : Fin n → ℚ → StateLin3d
  eeMotionIsConstantPhase : Fin n → ℚ → Bool
  eeScheduleIsInContact : Fin n → ℚ → Bool
  eeForcePoint : Fin n → ℚ → StateLin3d

/-- One sample of the extracted trajectory (xpp::RobotStateCartesian as
filled by the loop body of TOWR::GetTrajectory). -/
structure RobotStateCartesian (n : ℕ) where
  baseLin : StateLin3d
  baseAng : StateAng3d
  eeContact : Fin n → Bool
  eeMotion : Fin n → StateLin3d
  eeForces : Fin n → Vec3q
  tGlobal : ℚ

/-- The end-time slack `1e-5` of the extraction loop condition
`while (t <= T+1e-5)` (src/towr/src/towr.cc line 110). -/
def trajectoryEndSlack : ℚ := 1e-5

/-- Body of the extraction loop of TOWR::GetTrajectory: the state pushed for
time t (src/towr/src/towr.cc lines 112-126).  The contact flag comes from
IsConstantPhase of the leg's motion spline (line 120). -/
def mkTrajectorySample {n : ℕ} (m : VarsModel n) (t : ℚ) : RobotStateCartesian n :=
  { baseLin := m.baseLinearPoint t
    baseAng := m.angularConverter (m.baseAngularPoint t)
    eeContact := fun ee => m.eeMotionIsConstantPhase ee t
    eeMotion := fun ee => m.eeMotionPoint ee t
    eeForces := fun ee => (m.eeForcePoint ee t).p
    tGlobal := t }

/-- The `while (t <= T+1e-5) { push(state(t)); t += dt; }` loop of
TOWR::GetTrajectory, started at time t.  The source loop does not terminate
for dt <= 0, so that guard is part of the loop condition here and the
function returns the samples produced as long as the loop runs. -/
def getTrajectoryFrom {n : ℕ} (m : VarsModel n) (T dt t : ℚ) :
    List (RobotStateCartesian n) :=
  if 0 < dt ∧ t ≤ T + trajectoryEndSlack then
    mkTrajectorySample m t :: getTrajectoryFrom m T dt (t + dt)
  else
    []
termination_by (Int.floor ((T + trajectoryEndSlack - t) / dt) + 1).toNat
decreasing_by
  rename_i h
  obtain ⟨hdt, ht⟩ := h
  have key : (T + trajectoryEndSlack - (t + dt)) / dt
      = (T + trajectoryEndSlack - t) / dt - 1 := by
    field_simp
    ring
  have h0 : (0:ℚ) ≤ (T + trajectoryEndSlack - t) / dt :=
    div_nonneg (by linarith) hdt.le
  have hf : 0 ≤ Int.floor ((T + trajectoryEndSlack - t) / dt) :=
    Int.floor_nonneg.2 h0
  have hsub : Int.floor ((T + trajectoryEndSlack - t) / dt - 1)
      = Int.floor ((T + trajectoryEndSlack - t) / dt) - 1 := by
    exact_mod_cast Int.floor_sub_int ((T + trajectoryEndSlack - t) / dt) 1
  simp only [key, hsub]
  omega

/-- TOWR::GetTrajectory(vars, dt): runs the extraction loop from t = 0 over
the horizon T = params_.GetTotalTime(). -/
def getTrajectory {n : ℕ} (m : VarsModel n) (T dt : ℚ) :
    List (RobotStateCartesian n) :=
  getTrajectoryFrom m T dt 0

/-- State-passing view of one call to the const method
TOWR::GetTrajectory(vars, dt): the call produces the trajectory and hands the
variable assignment back; the body performs only const queries on it. -/
def getTrajectoryCall {n : ℕ} (m : VarsModel n) (T dt : ℚ) :
    List (RobotStateCartesian n) × VarsModel n :=
  (getTrajectoryFrom m T dt 0, m)

/-- The solver-facing state read by TOWR::GetIntermediateSolutions: the
iteration count and, per iteration, the variable snapshot returned by
nlp_.GetOptVariables(iter). -/
structure NlpModel (n : ℕ) where
  iterationCount : ℕ
  optVariables : ℕ → VarsModel n

/-- TOWR::GetIntermediateSolutions (src/towr/src/towr.cc lines 83-94): for
iter = 0 .. GetIterationCount()-1 push GetTrajectory(GetOptVariables(iter), dt). -/
def getIntermediateSolutions {n : ℕ} (nlp : NlpModel n) (T dt : ℚ) :
    List (List (RobotStateCartesian n)) :=
  (List.range nlp.iterationCount).map
    (fun iter => getTrajectory (nlp.optVariables iter) T dt)

/-- Terrain model (HeightMap): per the spec it provides ground height,
surface normal and friction coefficient as functions of horizontal position;
the implementation also stores a settable flat ground height. -/
structure HeightMap where
  groundHeight : ℚ
  normalAt : ℚ → ℚ → Vec3q
  frictionAt : ℚ → ℚ → ℚ

/-- Modelled from the spec: HeightMap::SetGroundHeight is not under the
sources (only its call site in towr.cc is); the terrain model exposes ground
height as queryable state, and the setter overwrites that stored ground
height, leaving the normal and friction queries untouched. -/
def HeightMap.setGroundHeight (m : HeightMap) (h : ℚ) : HeightMap :=
  { m with groundHeight := h }

/-- Final base state stored by SetParameters (xpp::State3dEuler). -/
structure State3dEulerQ where
  lin : StateLin3d
  ang : StateLin3d

/-- The TOWR members touched by SetParameters and
SetTerrainHeightFromAvgFootholdHeight: the initial end-effector positions in
world frame, the final base state, the total duration stored in params_, the
robot model and the terrain handle.  The robot-model type is abstract; the
claims never inspect it. -/
structure TowrState (n : ℕ) (Model : Type) where
  initialEeW : Fin n → Vec3q
  finalBase : State3dEulerQ
  paramsTotalTime : ℚ
  model : Model
  terrain : HeightMap

/-- TOWR::SetTerrainHeightFromAvgFootholdHeight (src/towr/src/towr.cc lines
133-140): accumulates pos.z()/count over the initial footholds and calls
terrain->SetGroundHeight on the result, mutating the terrain object. -/
def setTerrainHeightFromAvgFootholdHeight {n : ℕ} {Model : Type}
    (s : TowrState n Model) (terrain : HeightMap) : HeightMap :=
  terrain.setGroundHeight (∑ ee : Fin n, (s.initialEeW ee).z / n)

/-- TOWR::SetParameters (src/towr/src/towr.cc lines 32-49): stores the final
base, total duration, model and terrain handle, then calls
SetTerrainHeightFromAvgFootholdHeight on the terrain.  Returned value: the
updated TOWR state together with the post-call state of the terrain object
the caller passed in (which the member handle aliases). -/
def setParameters {n : ℕ} {Model : Type} (s : TowrState n Model)
    (finalBase : State3dEulerQ) (totalTime : ℚ) (model : Model)
    (terrain : HeightMap) : TowrState n Model × HeightMap :=
  let terrainAfter := setTerrainHeightFromAvgFootholdHeight s terrain
  ({ s with finalBase := finalBase
            paramsTotalTime := totalTime
            model := model
            terrain := terrainAfter },
   terrainAfter)

/-- Modelled from the spec: the implementation of
QuadraticPolynomialCost::GetValues is not under the sources; the header
(src/include/xpp/opt/polynomial_cost.h lines 37-40) documents
cost = x^T * M * x + v^T * x over the bound spline's coefficients x, and the
spec adds the scaling by the configured weight. -/
def quadraticCostValue {k : ℕ} (weight : ℚ) (M : Fin k → Fin k → ℚ)
    (v x : Fin k → ℚ) : ℚ :=
  weight * ((∑ i, ∑ j, x i * M i j * x j) + ∑ i, v i * x i)

/-- Modelled from the spec: the derivative of the Quadratic Cost with respect
to the owning spline's variables is weight * (2*M*x + v) (component j given
here); with respect to every other block it is zero. -/
def quadraticCostGradient {k : ℕ} (weight : ℚ) (M : Fin k → Fin k → ℚ)
    (v x : Fin k → ℚ) (j : Fin k) : ℚ :=
  weight * (2 * (∑ i, M j i * x i) + v j)

/-- Modelled from the spec: the Quadratic Cost's derivative with respect to
any block other than the owning spline's variables is zero. -/
def quadraticCostGradientOther {k : ℕ} (_weight : ℚ) (_M : Fin k → Fin k → ℚ)
    (_v _x : Fin k → ℚ) (_j : Fin k) : ℚ :=
  0

/-- Modelled from the spec: EndeffectorLoad (declared in
src/include/xpp/opt/constraints/convexity_constraint.h but implemented
elsewhere) exposes one normalized contact-load fraction per leg at each
discretized sample time. -/
structure EndeffectorLoad (n : ℕ) where
  lambdaAt : ℕ → Fin n → ℚ

/-- Modelled from the spec: the ConvexityConstraint row value at sample k is
the sum over all legs of that leg's load fraction at k, per the header's
documentation g[t_k] = lambda_LF + lambda_RF + lambda_LH + lambda_RH
(src/include/xpp/opt/constraints/convexity_constraint.h lines 18-23). -/
def convexityConstraintValue {n : ℕ} (load : EndeffectorLoad n) (k : ℕ) : ℚ :=
  ∑ ee : Fin n, load.lambdaAt k ee

/-- Modelled from the spec: the ConvexityConstraint bound of each row is the
equality bound at 1 (lower == upper == 1). -/
def convexityConstraintBound (_k : ℕ) : ℚ × ℚ :=
  (1, 1)

/-- A concrete variable snapshot used to instantiate the trajectory theorems
on explicit inputs. -/
def demoVars : VarsModel 1 :=
  { baseLinearPoint := fun t => ⟨⟨t, 0, 0⟩, ⟨1, 0, 0⟩, ⟨0, 0, 0⟩⟩
    baseAngularPoint := fun _ => ⟨⟨0, 0, 0⟩, ⟨0, 0, 0⟩, ⟨0, 0, 0⟩⟩
    angularConverter := fun _ => ⟨(1, 0, 0, 0), ⟨0, 0, 0⟩, ⟨0, 0, 0⟩⟩
    eeMotionPoint := fun _ t => ⟨⟨t, t, 0⟩, ⟨1, 1, 0⟩, ⟨0, 0, 0⟩⟩
    eeMotionIsConstantPhase := fun _ t => decide (t ≤ 1/2)
    eeScheduleIsInContact := fun _ _ => false
    eeForcePoint := fun _ _ => ⟨⟨0, 0, 100⟩, ⟨0, 0, 0⟩, ⟨0, 0, 0⟩⟩ }

/-- A concrete solver state with one recorded iteration. -/
def demoNlp : NlpModel 1 :=
  { iterationCount := 1
    optVariables := fun _ => demoVars }

/-- A zero linear state, for concrete instantiations. -/
def stateLin0 : StateLin3d :=
  ⟨⟨0, 0, 0⟩, ⟨0, 0, 0⟩, ⟨0, 0, 0⟩⟩

/-- A concrete terrain: flat ground at height 5, upward normals, unit
friction. -/
def demoTerrain : HeightMap :=
  { groundHeight := 5
    normalAt := fun _ _ => ⟨0, 0, 1⟩
    frictionAt := fun _ _ => 1 }

/-- A concrete one-legged TOWR state whose initial foothold sits at height 0. -/
def demoTowrState : TowrState 1 Unit :=
  { initialEeW := fun _ => ⟨0, 0, 0⟩
    finalBase := ⟨stateLin0, stateLin0⟩
    paramsTotalTime := 0
    model := ()
    terrain := demoTerrain }

end Towr

namespace Towr

lemma gimbalTol_eq : gimbalTol = 1/1000 := by norm_num [gimbalTol]

lemma gimbalTol_pos : 0 < gimbalTol := by norm_num [gimbalTol]

/-- Branch characterization: middle angle below the lower wrap threshold. -/
lemma getUnique_low (v : Vector3d) (h : v.y < -Real.pi/2 - gimbalTol) :
    getUnique v =
      { x := if v.x < 0 then v.x + Real.pi else v.x - Real.pi
        y := -(v.y + Real.pi)
        z := if v.z < 0 then v.z + Real.pi else v.z - Real.pi } := by
  unfold getUnique
  rw [if_pos h]

/-- Branch characterization: middle angle inside the tolerance band
around -pi/2 (gimbal lock); the third angle is folded into the first. -/
lemma getUnique_gimbal_lo (v : Vector3d)
    (h1 : -Real.pi/2 - gimbalTol ≤ v.y) (h2 : v.y ≤ -Real.pi/2 + gimbalTol) :
    getUnique v = { x := v.x - v.z, y := v.y, z := 0 } := by
  unfold getUnique
  rw [if_neg (not_lt.2 h1), if_pos ⟨h1, h2⟩]

/-- Branch characterization: middle angle in the interior band where the
triple is returned unchanged. -/
lemma getUnique_ok (v : Vector3d)
    (h1 : -Real.pi/2 + gimbalTol < v.y) (h2 : v.y < Real.pi/2 - gimbalTol) :
    getUnique v = v := by
  have htol := gimbalTol_pos
  unfold getUnique
  rw [if_neg (by push_neg; linarith), if_neg (by rintro ⟨-, hb⟩; linarith),
    if_pos ⟨h1, h2⟩]

/-- Branch characterization: middle angle inside the tolerance band
around +pi/2 (gimbal lock); the third angle is folded into the first. -/
lemma getUnique_gimbal_hi (v : Vector3d)
    (h1 : Real.pi/2 - gimbalTol ≤ v.y) (h2 : v.y ≤ Real.pi/2 + gimbalTol) :
    getUnique v = { x := v.x + v.z, y := v.y, z := 0 } := by
  have htol := gimbalTol_eq
  have hpi := Real.pi_gt_three
  unfold getUnique
  rw [if_neg (by push_neg; linarith), if_neg (by rintro ⟨-, hb⟩; linarith),
    if_neg (by rintro ⟨-, hb⟩; linarith), if_pos ⟨h1, h2⟩]

/-- Unfolding of one iteration of the extraction loop while its condition
holds. -/
lemma getTrajectoryFrom_step {n : ℕ} (m : VarsModel n) (T dt t : ℚ)
    (h : 0 < dt ∧ t ≤ T + trajectoryEndSlack) :
    getTrajectoryFrom m T dt t
      = mkTrajectorySample m t :: getTrajectoryFrom m T dt (t + dt) := by
  rw [getTrajectoryFrom]
  exact if_pos h

/-- The extraction loop stops once its condition fails. -/
lemma getTrajectoryFrom_stop {n : ℕ} (m : VarsModel n) (T dt t : ℚ)
    (h : ¬ (0 < dt ∧ t ≤ T + trajectoryEndSlack)) :
    getTrajectoryFrom m T dt t = [] := by
  rw [getTrajectoryFrom]
  exact if_neg h

/-- Every sample the extraction loop produces is the loop body evaluated at
that sample's own global time. -/
lemma getTrajectoryFrom_mem {n : ℕ} (m : VarsModel n) (T dt t0 : ℚ) :
    ∀ s ∈ getTrajectoryFrom m T dt t0, s = mkTrajectorySample m s.tGlobal := by
  refine getTrajectoryFrom.induct m T dt
    (fun t => ∀ s ∈ getTrajectoryFrom m T dt t, s = mkTrajectorySample m s.tGlobal)
    ?_ ?_ t0
  · intro x hx ih s hs
    rw [getTrajectoryFrom_step m T dt x hx] at hs
    rcases List.mem_cons.1 hs with h | h
    · subst h; rfl
    · exact ih s h
  · intro x hx s hs
    rw [getTrajectoryFrom_stop m T dt x hx] at hs
    simp at hs

/-- The extraction loop never reads the phase-duration schedule's contact
predicate: replacing it leaves the produced trajectory unchanged. -/
lemma getTrajectoryFrom_schedule_irrelevant {n : ℕ} (m : VarsModel n)
    (f : Fin n → ℚ → Bool) (T dt t0 : ℚ) :
    getTrajectoryFrom { m with eeScheduleIsInContact := f } T dt t0
      = getTrajectoryFrom m T dt t0 := by
  refine getTrajectoryFrom.induct m T dt
    (fun t => getTrajectoryFrom { m with eeScheduleIsInContact := f } T dt t
      = getTrajectoryFrom m T dt t) ?_ ?_ t0
  · intro x hx ih
    rw [getTrajectoryFrom_step _ T dt x hx, getTrajectoryFrom_step m T dt x hx, ih]
    rfl
  · intro x hx
    rw [getTrajectoryFrom_stop _ T dt x hx, getTrajectoryFrom_stop m T dt x hx]

/-- C3: the extraction loop walks t from 0 to total_duration inclusive with
slack 1e-5, stepping by dt; with total duration 1.0 and dt = 0.5 it produces
exactly three samples, at t = 0.0, 0.5 and 1.0, in that order. -/
theorem towr_getTrajectory_samples {n : ℕ} (m : VarsModel n) :
    (getTrajectory m 1 (1/2)).length = 3 ∧
    (getTrajectory m 1 (1/2)).map RobotStateCartesian.tGlobal = [0, 1/2, 1] := by
  have e : getTrajectory m 1 (1/2)
      = [mkTrajectorySample m 0, mkTrajectorySample m (1/2), mkTrajectorySample m 1] := by
    rw [getTrajectory,
      getTrajectoryFrom_step _ _ _ _ (by norm_num [trajectoryEndSlack]),
      getTrajectoryFrom_step _ _ _ _ (by norm_num [trajectoryEndSlack]),
      getTrajectoryFrom_step _ _ _ _ (by norm_num [trajectoryEndSlack]),
      getTrajectoryFrom_stop _ _ _ _ (by norm_num [trajectoryEndSlack])]
    norm_num
  rw [e]
  exact ⟨rfl, rfl⟩

/-- C9: trajectory extraction is pure and deterministic: calls on equal
variable assignments with the same dt return identical sample sequences, and
a call hands the variable assignment back unmodified. -/
theorem towr_getTrajectory_pure {n : ℕ} (m m2 : VarsModel n) (T dt : ℚ)
    (h : m = m2) :
    (getTrajectoryCall m T dt).1 = (getTrajectoryCall m2 T dt).1 ∧
    (getTrajectoryCall m T dt).2 = m := by
  subst h
  exact ⟨rfl, rfl⟩

/-- Witness for C9 at a concrete variable snapshot. -/
theorem towr_getTrajectory_pure_witness :
    (getTrajectoryCall demoVars 1 (1/2)).1 = (getTrajectoryCall demoVars 1 (1/2)).1 ∧
    (getTrajectoryCall demoVars 1 (1/2)).2 = demoVars :=
  towr_getTrajectory_pure demoVars demoVars 1 (1/2) rfl

/-- C10: every sample's per-leg contact flag equals the leg's motion
spline's constant-phase predicate at the sample time, and the trajectory is
independent of the phase-duration schedule's contact predicate. -/
theorem towr_getTrajectory_contact_flag {n : ℕ} (m : VarsModel n) (T dt : ℚ) :
    (∀ s ∈ getTrajectory m T dt, ∀ ee : Fin n,
        s.eeContact ee = m.eeMotionIsConstantPhase ee s.tGlobal) ∧
    (∀ f : Fin n → ℚ → Bool,
        getTrajectory { m with eeScheduleIsInContact := f } T dt
          = getTrajectory m T dt) := by
  constructor
  · intro s hs ee
    have h := getTrajectoryFrom_mem m T dt 0 s hs
    rw [h]
    rfl
  · intro f
    exact getTrajectoryFrom_schedule_irrelevant m f T dt 0

/-- Witness for C10: the first sample of a concrete extraction carries the
constant-phase flag of its leg at t = 0. -/
theorem towr_getTrajectory_contact_flag_witness :
    (mkTrajectorySample demoVars 0).eeContact 0
      = demoVars.eeMotionIsConstantPhase 0 (mkTrajectorySample demoVars 0).tGlobal :=
  (towr_getTrajectory_contact_flag demoVars 1 (1/2)).1 (mkTrajectorySample demoVars 0)
    (by
      rw [getTrajectory,
        getTrajectoryFrom_step _ _ _ _ (by norm_num [trajectoryEndSlack])]
      exact List.mem_cons_self _ _)
    0

/-- C8: one extracted trajectory per recorded solver iteration, in iteration
order; entry i is extracted from the variable snapshot of iteration i. -/
theorem towr_getIntermediateSolutions_per_iteration {n : ℕ} (nlp : NlpModel n)
    (T dt : ℚ) (i : ℕ) (h : i < nlp.iterationCount) :
    (getIntermediateSolutions nlp T dt).length = nlp.iterationCount ∧
    (getIntermediateSolutions nlp T dt)[i]?
      = some (getTrajectory (nlp.optVariables i) T dt) := by
  constructor
  · simp [getIntermediateSolutions]
  · simp [getIntermediateSolutions, List.getElem?_map, List.getElem?_range, h]

/-- Witness for C8 on a concrete one-iteration solver state. -/
theorem towr_getIntermediateSolutions_witness :
    (getIntermediateSolutions demoNlp 1 (1/2)).length = demoNlp.iterationCount ∧
    (getIntermediateSolutions demoNlp 1 (1/2))[0]?
      = some (getTrajectory (demoNlp.optVariables 0) 1 (1/2)) :=
  towr_getIntermediateSolutions_per_iteration demoNlp 1 (1/2) 0 (by norm_num [demoNlp])

/-- Branch characterization: middle angle above the upper wrap threshold. -/
lemma getUnique_high (v : Vector3d) (h : Real.pi/2 + gimbalTol < v.y) :
    getUnique v =
      { x := if v.x < 0 then v.x + Real.pi else v.x - Real.pi
        y := -(v.y - Real.pi)
        z := if v.z < 0 then v.z + Real.pi else v.z - Real.pi } := by
  have htol := gimbalTol_eq
  have hpi := Real.pi_gt_three
  unfold getUnique
  rw [if_neg (by push_neg; linarith), if_neg (by rintro ⟨-, hb⟩; linarith),
    if_neg (by rintro ⟨-, hb⟩; linarith), if_neg (by rintro ⟨-, hb⟩; linarith)]

/-- C1 counterexample: for the input triple (0, 3*pi, 0), normalizing twice
differs from normalizing once, so TOWR::GetUnique is not idempotent on all
input triples. -/
theorem towr_getUnique_not_idempotent :
    getUnique (getUnique ⟨0, 3*Real.pi, 0⟩) ≠ getUnique ⟨0, 3*Real.pi, 0⟩ := by
  have htol := gimbalTol_eq
  have hpi3 := Real.pi_gt_three
  have h1 : getUnique ⟨0, 3*Real.pi, 0⟩ = ⟨-Real.pi, -(2*Real.pi), -Real.pi⟩ := by
    rw [getUnique_high ⟨0, 3*Real.pi, 0⟩
      (by show Real.pi/2 + gimbalTol < 3*Real.pi; linarith)]
    norm_num
    ring
  have h2 : getUnique ⟨-Real.pi, -(2*Real.pi), -Real.pi⟩ = ⟨0, Real.pi, 0⟩ := by
    rw [getUnique_low ⟨-Real.pi, -(2*Real.pi), -Real.pi⟩
      (by show -(2*Real.pi) < -Real.pi/2 - gimbalTol; linarith)]
    have hneg : -Real.pi < 0 := by linarith
    simp only [hneg, if_true, if_pos hneg]
    norm_num
    ring
  rw [h1, h2]
  intro heq
  have hy := congrArg Vector3d.y heq
  simp only [] at hy
  -- hy equates pi with -(2*pi), impossible since pi > 3
  have : Real.pi = -(2*Real.pi) := hy
  linarith

/-- C1 amended: TOWR::GetUnique is idempotent on every input triple whose
middle angle lies in (-3*pi/2 + tol, 3*pi/2 - tol); the outer angles are
unrestricted. -/
theorem towr_getUnique_idempotent_in_band (v : Vector3d)
    (h1 : -(3*Real.pi)/2 + gimbalTol < v.y) (h2 : v.y < 3*Real.pi/2 - gimbalTol) :
    getUnique (getUnique v) = getUnique v := by
  have htol := gimbalTol_eq
  have hpi3 := Real.pi_gt_three
  rcases lt_or_le v.y (-Real.pi/2 - gimbalTol) with hc | hc1
  · rw [getUnique_low v hc]
    exact getUnique_ok _
      (by show -Real.pi/2 + gimbalTol < -(v.y + Real.pi); linarith)
      (by show -(v.y + Real.pi) < Real.pi/2 - gimbalTol; linarith)
  · rcases le_or_lt v.y (-Real.pi/2 + gimbalTol) with hc2 | hc2
    · rw [getUnique_gimbal_lo v hc1 hc2,
        getUnique_gimbal_lo _ (by show -Real.pi/2 - gimbalTol ≤ v.y; linarith)
          (by show v.y ≤ -Real.pi/2 + gimbalTol; linarith)]
      simp
    · rcases lt_or_le v.y (Real.pi/2 - gimbalTol) with hc3 | hc3
      · rw [getUnique_ok v hc2 hc3, getUnique_ok v hc2 hc3]
      · rcases le_or_lt v.y (Real.pi/2 + gimbalTol) with hc4 | hc4
        · rw [getUnique_gimbal_hi v hc3 hc4,
            getUnique_gimbal_hi _ (by show Real.pi/2 - gimbalTol ≤ v.y; linarith)
              (by show v.y ≤ Real.pi/2 + gimbalTol; linarith)]
          simp
        · rw [getUnique_high v hc4]
          exact getUnique_ok _
            (by show -Real.pi/2 + gimbalTol < -(v.y - Real.pi); linarith)
            (by show -(v.y - Real.pi) < Real.pi/2 - gimbalTol; linarith)

/-- Witness for amended C1 at a concrete canonical triple. -/
theorem towr_getUnique_idempotent_witness :
    getUnique (getUnique ⟨0, 0, 0⟩) = getUnique ⟨0, 0, 0⟩ :=
  towr_getUnique_idempotent_in_band ⟨0, 0, 0⟩
    (by
      show -(3*Real.pi)/2 + gimbalTol < (0:ℝ)
      have h := Real.pi_gt_three
      rw [gimbalTol_eq]
      linarith)
    (by
      show (0:ℝ) < 3*Real.pi/2 - gimbalTol
      have h := Real.pi_gt_three
      rw [gimbalTol_eq]
      linarith)

/-- C2 counterexample: TOWR::GetUnique does not put the returned angles into
the claimed ranges for every input: the triple (10, 0, 0) keeps its first
angle 10 outside [-pi, pi); an input pitch of -pi/2 - tol stays below -pi/2;
and folding in the tolerance band can push the first angle below -pi. -/
theorem towr_getUnique_range_violation :
    (¬ (-Real.pi ≤ (getUnique ⟨10, 0, 0⟩).x ∧ (getUnique ⟨10, 0, 0⟩).x < Real.pi)) ∧
    (getUnique ⟨0, -Real.pi/2 - gimbalTol, 0⟩).y < -Real.pi/2 ∧
    (getUnique ⟨-3, -Real.pi/2, 3⟩).x < -Real.pi := by
  have htol := gimbalTol_eq
  have hpi3 := Real.pi_gt_three
  have hpi315 := Real.pi_lt_d2
  refine ⟨?_, ?_, ?_⟩
  · rw [getUnique_ok ⟨10, 0, 0⟩
      (by show -Real.pi/2 + gimbalTol < 0; linarith)
      (by show (0:ℝ) < Real.pi/2 - gimbalTol; linarith)]
    rintro ⟨-, hb⟩
    have hb10 : (10:ℝ) < Real.pi := hb
    linarith
  · rw [getUnique_gimbal_lo ⟨0, -Real.pi/2 - gimbalTol, 0⟩
      (by show -Real.pi/2 - gimbalTol ≤ -Real.pi/2 - gimbalTol; exact le_refl _)
      (by show -Real.pi/2 - gimbalTol ≤ -Real.pi/2 + gimbalTol; linarith)]
    show -Real.pi/2 - gimbalTol < -Real.pi/2
    linarith
  · rw [getUnique_gimbal_lo ⟨-3, -Real.pi/2, 3⟩
      (by show -Real.pi/2 - gimbalTol ≤ -Real.pi/2; linarith)
      (by show -Real.pi/2 ≤ -Real.pi/2 + gimbalTol; linarith)]
    show (-3:ℝ) - 3 < -Real.pi
    linarith

/-- C2 amended: for inputs whose middle angle lies in (-3*pi/2, 3*pi/2)
outside the tolerance bands around plus/minus pi/2 and whose outer angles lie
in [-pi, pi), the returned triple has middle angle in [-pi/2, pi/2] and outer
angles in [-pi, pi). -/
theorem towr_getUnique_range_in_band (v : Vector3d)
    (hlo : -(3*Real.pi)/2 < v.y) (hhi : v.y < 3*Real.pi/2)
    (hband : v.y < -Real.pi/2 - gimbalTol ∨
      (-Real.pi/2 + gimbalTol < v.y ∧ v.y < Real.pi/2 - gimbalTol) ∨
      Real.pi/2 + gimbalTol < v.y)
    (hx1 : -Real.pi ≤ v.x) (hx2 : v.x < Real.pi)
    (hz1 : -Real.pi ≤ v.z) (hz2 : v.z < Real.pi) :
    -Real.pi/2 ≤ (getUnique v).y ∧ (getUnique v).y ≤ Real.pi/2 ∧
    -Real.pi ≤ (getUnique v).x ∧ (getUnique v).x < Real.pi ∧
    -Real.pi ≤ (getUnique v).z ∧ (getUnique v).z < Real.pi := by
  have htol := gimbalTol_eq
  have hpi3 := Real.pi_gt_three
  rcases hband with hc | ⟨hc1, hc2⟩ | hc
  · rw [getUnique_low v hc]
    dsimp only
    split_ifs <;>
      refine ⟨by linarith, by linarith, by linarith, by linarith, by linarith,
        by linarith⟩
  · rw [getUnique_ok v hc1 hc2]
    exact ⟨by linarith, by linarith, hx1, hx2, hz1, hz2⟩
  · rw [getUnique_high v hc]
    dsimp only
    split_ifs <;>
      refine ⟨by linarith, by linarith, by linarith, by linarith, by linarith,
        by linarith⟩

/-- Witness for amended C2 at a concrete input. -/
theorem towr_getUnique_range_witness :
    -Real.pi/2 ≤ (getUnique ⟨0, 0, 0⟩).y ∧ (getUnique ⟨0, 0, 0⟩).y ≤ Real.pi/2 ∧
    -Real.pi ≤ (getUnique ⟨0, 0, 0⟩).x ∧ (getUnique ⟨0, 0, 0⟩).x < Real.pi ∧
    -Real.pi ≤ (getUnique ⟨0, 0, 0⟩).z ∧ (getUnique ⟨0, 0, 0⟩).z < Real.pi :=
  towr_getUnique_range_in_band ⟨0, 0, 0⟩
    (by show -(3*Real.pi)/2 < (0:ℝ); have := Real.pi_gt_three; linarith)
    (by show (0:ℝ) < 3*Real.pi/2; have := Real.pi_gt_three; linarith)
    (Or.inr (Or.inl
      ⟨by show -Real.pi/2 + gimbalTol < (0:ℝ); have := Real.pi_gt_three;
          rw [gimbalTol_eq]; linarith,
       by show (0:ℝ) < Real.pi/2 - gimbalTol; have := Real.pi_gt_three;
          rw [gimbalTol_eq]; linarith⟩))
    (by show -Real.pi ≤ (0:ℝ); have := Real.pi_gt_three; linarith)
    (by show (0:ℝ) < Real.pi; have := Real.pi_gt_three; linarith)
    (by show -Real.pi ≤ (0:ℝ); have := Real.pi_gt_three; linarith)
    (by show (0:ℝ) < Real.pi; have := Real.pi_gt_three; linarith)

/-- C6: inside the fixed tolerance band around -pi/2 the third angle is
subtracted into the first and zeroed; inside the band around +pi/2 it is
added into the first and zeroed — a deterministic, total resolution of the
gimbal-lock degeneracy. -/
theorem towr_getUnique_gimbal_fold (v : Vector3d) :
    ((-Real.pi/2 - gimbalTol ≤ v.y ∧ v.y ≤ -Real.pi/2 + gimbalTol) →
      getUnique v = ⟨v.x - v.z, v.y, 0⟩) ∧
    ((Real.pi/2 - gimbalTol ≤ v.y ∧ v.y ≤ Real.pi/2 + gimbalTol) →
      getUnique v = ⟨v.x + v.z, v.y, 0⟩) :=
  ⟨fun h => getUnique_gimbal_lo v h.1 h.2, fun h => getUnique_gimbal_hi v h.1 h.2⟩

/-- Witness for C6 at a concrete input in the lower gimbal band. -/
theorem towr_getUnique_gimbal_fold_witness :
    getUnique ⟨1, -Real.pi/2, 2⟩ = ⟨1 - 2, -Real.pi/2, 0⟩ :=
  (towr_getUnique_gimbal_fold ⟨1, -Real.pi/2, 2⟩).1
    ⟨by show -Real.pi/2 - gimbalTol ≤ -Real.pi/2; have := gimbalTol_pos; linarith,
     by show -Real.pi/2 ≤ -Real.pi/2 + gimbalTol; have := gimbalTol_pos; linarith⟩

/-- C4 counterexample: SetParameters does mutate the terrain object passed to
it: with an initial foothold at height 0 and a terrain whose stored ground
height is 5, the terrain after the call differs from the terrain before. -/
theorem towr_setParameters_mutates_terrain :
    (setParameters demoTowrState demoTowrState.finalBase 1 () demoTerrain).2
      ≠ demoTerrain := by
  intro h
  have hg := congrArg HeightMap.groundHeight h
  simp [setParameters, setTerrainHeightFromAvgFootholdHeight,
    HeightMap.setGroundHeight, demoTowrState, demoTerrain] at hg

/-- C4 amended: SetParameters changes the terrain in exactly one way: it
overwrites the stored ground height with the average height of the initial
footholds; the terrain's surface-normal and friction queries are unchanged,
and the stored terrain handle aliases that updated terrain. -/
theorem towr_setParameters_terrain_effect {n : ℕ} {Model : Type}
    (s : TowrState n Model) (fb : State3dEulerQ) (totalTime : ℚ) (mdl : Model)
    (terrain : HeightMap) :
    (setParameters s fb totalTime mdl terrain).2.groundHeight
      = ∑ ee : Fin n, (s.initialEeW ee).z / n ∧
    (setParameters s fb totalTime mdl terrain).2.normalAt = terrain.normalAt ∧
    (setParameters s fb totalTime mdl terrain).2.frictionAt = terrain.frictionAt ∧
    (setParameters s fb totalTime mdl terrain).1.terrain
      = (setParameters s fb totalTime mdl terrain).2 :=
  ⟨rfl, rfl, rfl, rfl⟩

/-- C7: the Convexity Constraint row at each sampled time is the sum of the
per-leg load fractions, its bound is the equality bound at 1, and satisfying
the bound is equivalent to the load fractions summing to one. -/
theorem towr_convexityConstraint_row {n : ℕ} (load : EndeffectorLoad n) (k : ℕ) :
    convexityConstraintValue load k = ∑ ee : Fin n, load.lambdaAt k ee ∧
    convexityConstraintBound k = (1, 1) ∧
    (((convexityConstraintBound k).1 ≤ convexityConstraintValue load k ∧
      convexityConstraintValue load k ≤ (convexityConstraintBound k).2) ↔
      ∑ ee : Fin n, load.lambdaAt k ee = 1) := by
  refine ⟨rfl, rfl, ?_⟩
  unfold convexityConstraintValue convexityConstraintBound
  constructor
  · rintro ⟨ha, hb⟩
    exact le_antisymm hb ha
  · intro h
    exact ⟨le_of_eq h.symm, le_of_eq h⟩

/-- C5: the Quadratic Cost with M = identity, v = 0, weight = 2 and
x = [1, 1] evaluates to 4 with derivative [4, 4]; the other-block derivative
is zero; and for every symmetric M the configured derivative
weight * (2*M*x + v) is exact: perturbing coefficient j by t changes the
cost by t times the derivative plus the quadratic remainder weight * M j j * t^2. -/
theorem towr_quadraticCost_spec :
    quadraticCostValue (k := 2) 2 (fun i j => if i = j then 1 else 0)
      (fun _ => 0) (fun _ => 1) = 4 ∧
    (∀ j : Fin 2, quadraticCostGradient 2 (fun i j => if i = j then 1 else 0)
      (fun _ => 0) (fun _ => 1) j = 4) ∧
    (∀ j : Fin 2, quadraticCostGradientOther 2 (fun i j => if i = j then 1 else 0)
      (fun _ => 0) (fun _ => 1) j = 0) ∧
    (∀ (k : ℕ) (w : ℚ) (M : Fin k → Fin k → ℚ) (v x : Fin k → ℚ) (j : Fin k)
      (t : ℚ), (∀ a b, M a b = M b a) →
      quadraticCostValue w M v (fun i => x i + if i = j then t else 0)
        = quadraticCostValue w M v x + t * quadraticCostGradient w M v x j
          + w * (M j j * t^2)) := by
  refine ⟨by norm_num [quadraticCostValue, Fin.sum_univ_two],
    by intro j; fin_cases j <;> norm_num [quadraticCostGradient, Fin.sum_univ_two],
    fun j => rfl, ?_⟩
  intro k w M v x j t hsym
  unfold quadraticCostValue quadraticCostGradient
  have hv : (∑ i, v i * (x i + if i = j then t else 0))
      = (∑ i, v i * x i) + v j * t := by
    simp only [mul_add, mul_ite, mul_zero, Finset.sum_add_distrib,
      Finset.sum_ite_eq', Finset.mem_univ, if_true]
  have hrow : ∀ i : Fin k,
      (∑ j2, (x i + if i = j then t else 0) * M i j2 * (x j2 + if j2 = j then t else 0))
        = (∑ j2, x i * M i j2 * x j2)
          + (if i = j then t else 0) * (∑ j2, M i j2 * x j2)
          + (x i * M i j) * t + (if i = j then t else 0) * M i j * t := by
    intro i
    have hpt : ∀ j2 : Fin k,
        (x i + if i = j then t else 0) * M i j2 * (x j2 + if j2 = j then t else 0)
          = (x i * M i j2 * x j2 + (if i = j then t else 0) * (M i j2 * x j2))
            + (if j2 = j then (x i * M i j2) * t
                + (if i = j then t else 0) * M i j2 * t else 0) := by
      intro j2
      by_cases h2 : j2 = j <;> by_cases h1 : i = j <;> simp [h1, h2] <;> ring
    rw [Finset.sum_congr rfl (fun j2 _ => hpt j2), Finset.sum_add_distrib,
      Finset.sum_add_distrib, Finset.mul_sum, Finset.sum_ite_eq']
    simp [Finset.mul_sum]
    ring
  rw [Finset.sum_congr rfl (fun i _ => hrow i), hv]
  simp only [Finset.sum_add_distrib, ite_mul, zero_mul, Finset.sum_ite_eq',
    Finset.mem_univ, if_true]
  have hswap : (∑ i, (x i * M i j) * t) = t * (∑ i, M j i * x i) := by
    rw [Finset.mul_sum]
    refine Finset.sum_congr rfl (fun i _ => ?_)
    rw [hsym j i]
    ring
  rw [hswap]
  ring

/-- Witness for C5: the derivative-consistency part applied to the identity
matrix on two coefficients, with the symmetry hypothesis discharged. -/
theorem towr_quadraticCost_spec_witness :
    quadraticCostValue (k := 2) 2 (fun i j => if i = j then 1 else 0) (fun _ => 0)
      (fun i => (fun _ => (1:ℚ)) i + if i = (0 : Fin 2) then 1 else 0)
      = quadraticCostValue (k := 2) 2 (fun i j => if i = j then 1 else 0)
          (fun _ => 0) (fun _ => 1)
        + 1 * quadraticCostGradient (k := 2) 2 (fun i j => if i = j then 1 else 0)
            (fun _ => 0) (fun _ => 1) (0 : Fin 2)
        + 2 * ((if (0 : Fin 2) = (0 : Fin 2) then (1:ℚ) else 0) * 1^2) :=
  towr_quadraticCost_spec.2.2.2 2 2 (fun i j => if i = j then 1 else 0)
    (fun _ => 0) (fun _ => 1) 0 1 (by decide)

end Towr
